import Mathlib

/-!
Verification of the data-processing script in `src/main.go` (PontusLabs/scripts).

Shallow embedding: Go `float64` values are modelled as `ℚ` (exact rational
arithmetic), `[]float64` as `List ℚ`, and each operation's
`map[string]interface{}` result as a structure holding the fields the operation
writes.  Go's `int(x)` conversion on a float truncates toward zero, which the
model makes explicit.  Go map iteration order is unspecified; functions that
iterate a map take the visiting order as an explicit parameter.
-/

namespace Scripts

/-- Go's `int(x)` conversion of a float truncates toward zero
(used at src/main.go:239). -/
def goTrunc (q : ℚ) : ℤ := if 0 ≤ q then ⌊q⌋ else ⌈q⌉

/-- `roundToTwo` (src/main.go:238-240): `float64(int(value*100+0.5)) / 100`. -/
def roundToTwo (value : ℚ) : ℚ := (goTrunc (value * 100 + 1/2) : ℚ) / 100

/-- `calculateMedian` (src/main.go:216-222).  Indexing is `getD` with default 0;
every caller passes a non-empty list, for which the defaults are never used. -/
def calculateMedian (sortedData : List ℚ) : ℚ :=
  if sortedData.length % 2 = 0 then
    (sortedData.getD (sortedData.length / 2 - 1) 0
      + sortedData.getD (sortedData.length / 2) 0) / 2
  else sortedData.getD (sortedData.length / 2) 0

/-- The statistics fields of the `"analysis"` result map (src/main.go:112-123). -/
structure AnalysisStats where
  count : ℕ
  sum : ℚ
  mean : ℚ
  median : ℚ
  min : ℚ
  max : ℚ
  range : ℚ
  percentile25 : ℚ
  percentile75 : ℚ
  deriving DecidableEq

/-- Result of `analyzeData`: either the single-field `{"error": ...}` map
(src/main.go:90-92), carrying nothing but the message, or the full
`{"type": "analysis", ...}` map. -/
inductive AnalyzeResult where
  | error (msg : String)
  | analysis (stats : AnalysisStats)
  deriving DecidableEq

/-- The sorted copy built at src/main.go:96-98: `make` + `copy` + `sort.Float64s`
applied to the fresh slice. -/
def sortedCopy (data : List ℚ) : List ℚ := data.mergeSort (fun a b => decide (a ≤ b))

/-- `analyzeData` (src/main.go:88-124).  `sum` folds over `data` in order
(src/main.go:105-107); `min`/`max` are the ends of the sorted copy;
sum, mean and median are rounded, the other numeric fields are not. -/
def analyzeData (data : List ℚ) (batchSize : ℕ) : AnalyzeResult :=
  if data.length = 0 then .error "no data to analyze"
  else
    let sortedData := sortedCopy data
    let sum := data.foldl (· + ·) 0
    let mean := sum / (data.length : ℚ)
    let median := calculateMedian sortedData
    .analysis {
      count := data.length
      sum := roundToTwo sum
      mean := roundToTwo mean
      median := roundToTwo median
      min := sortedData.getD 0 0
      max := sortedData.getD (sortedData.length - 1) 0
      range := sortedData.getD (sortedData.length - 1) 0 - sortedData.getD 0 0
      percentile25 := sortedData.getD (sortedData.length / 4) 0
      percentile75 := sortedData.getD (3 * sortedData.length / 4) 0 }

/-- The returned median of an analyze result (0 on the error result). -/
def AnalyzeResult.medianOf : AnalyzeResult → ℚ
  | .error _ => 0
  | .analysis s => s.median

/-- The returned min of an analyze result (0 on the error result). -/
def AnalyzeResult.minOf : AnalyzeResult → ℚ
  | .error _ => 0
  | .analysis s => s.min

/-- State-passing translation of the slice operations inside `analyzeData`
(src/main.go:95-98): `sortedData := make(...)`, `copy(sortedData, data)` creates
a fresh slice whose contents equal `data`; `sort.Float64s(sortedData)` sorts only
that fresh slice.  The pair is (caller's slice after the call, the sorted copy). -/
def analyzeSliceEffect (data : List ℚ) : List ℚ × List ℚ :=
  let sortedData := data
  let sortedData := sortedData.mergeSort (fun a b => decide (a ≤ b))
  (data, sortedData)

/-- The batch slicing loop of `transformData` (src/main.go:132-138):
`for i := 0; i < len(data); i += batchSize` with `batch := data[i:end]`,
`end = min(i+batchSize, len(data))`.  For `batchSize ≥ 1` each step takes the
next `batchSize` elements (`v :: rest.take (batchSize - 1)` is
`data.take batchSize`) and continues on `data.drop batchSize`.
`batchSize = 0` makes the Go loop run forever; the spec requires
`batch_size ≥ 1`, and all theorems below assume it. -/
def goBatches (batchSize : ℕ) : List ℚ → List (List ℚ)
  | [] => []
  | v :: rest =>
      (v :: rest.take (batchSize - 1)) :: goBatches batchSize (rest.drop (batchSize - 1))
termination_by l => l.length
decreasing_by simp; omega

/-- The per-batch summary map of `processBatch` (src/main.go:208-213). -/
structure BatchResult where
  batchNumber : ℕ
  size : ℕ
  sum : ℚ
  average : ℚ
  deriving DecidableEq

/-- `processBatch` (src/main.go:202-214). -/
def processBatch (batch : List ℚ) (batchNum : ℕ) : BatchResult :=
  let sum := batch.foldl (· + ·) 0
  { batchNumber := batchNum
    size := batch.length
    sum := roundToTwo sum
    average := roundToTwo (sum / (batch.length : ℚ)) }

/-- The normalization applied to each value (src/main.go:144-148):
`(value/1000)*100`, clamped above at 100 (no lower clamp), then rounded. -/
def normalizeValue (value : ℚ) : ℚ :=
  let normalized := (value / 1000) * 100
  roundToTwo (if normalized > 100 then 100 else normalized)

/-- The `"transformation"` result map fields (src/main.go:152-158). -/
structure TransformResult where
  originalCount : ℕ
  transformed : List ℚ
  batchResults : List BatchResult
  batchesProcessed : ℕ
  deriving DecidableEq

/-- `transformData` (src/main.go:127-159).  The k-th batch (0-based k) starts at
index `i = k*batchSize`, so its number `i/batchSize + 1` is `k + 1`;
`transformed` appends the normalized values batch by batch, in order. -/
def transformData (data : List ℚ) (batchSize : ℕ) : TransformResult :=
  let batchList := goBatches batchSize data
  let batches := batchList.enum.map (fun p => processBatch p.2 (p.1 + 1))
  { originalCount := data.length
    transformed := (batchList.map (fun batch => batch.map normalizeValue)).flatten
    batchResults := batches
    batchesProcessed := batches.length }

/-- The switch classifying one value into its range bucket (src/main.go:171-184). -/
def bucketOf (value : ℚ) : String :=
  if value ≤ 25 then "0-25"
  else if value ≤ 50 then "26-50"
  else if value ≤ 75 then "51-75"
  else if value ≤ 100 then "76-100"
  else "100+"

/-- The five keys of the `ranges` map literal (src/main.go:163-169). -/
def bucketKeys : List String := ["0-25", "26-50", "51-75", "76-100", "100+"]

/-- One `ranges[...]++` step of the classification loop (src/main.go:171-184),
acting on the counts map viewed as a function on keys. -/
def bumpBucket (m : String → ℕ) (value : ℚ) : String → ℕ :=
  fun k => if k = bucketOf value then m k + 1 else m k

/-- The bucket counts after the classification loop (src/main.go:163-184);
all five buckets start at 0. -/
def aggregateRanges (data : List ℚ) : String → ℕ :=
  data.foldl bumpBucket (fun _ => 0)

/-- One iteration of the `findLargestGroup` loop body (src/main.go:228-233):
the accumulator is `(maxCount, maxKey)`. -/
def largestStep (ranges : String → ℕ) (acc : ℕ × String) (key : String) : ℕ × String :=
  if ranges key > acc.1 then (ranges key, key) else acc

/-- `findLargestGroup` (src/main.go:224-236), starting from `maxCount = 0`,
`maxKey = ""`.  Go iterates the map in an unspecified order; `order` is the
sequence in which `for key, count := range ranges` visits the keys (any
permutation of `bucketKeys`). -/
def findLargestGroup (order : List String) (ranges : String → ℕ) : String :=
  (order.foldl (largestStep ranges) (0, "")).2

/-- The `"aggregation"` result map fields (src/main.go:192-198); the two nested
maps are represented as functions on their keys. -/
structure AggregateResult where
  totalCount : ℕ
  ranges : String → ℕ
  percentages : String → ℚ
  largestGroup : String

/-- `aggregateData` (src/main.go:162-199).  `order` models the map iteration
order used by `findLargestGroup`.  The percentage of each bucket is
`(count/total)*100` rounded; in `ℚ` the unguarded division gives `x / 0 = 0`
for the empty dataset — `percentageChecked` below makes the zero divisor
observable. -/
def aggregateData (data : List ℚ) (batchSize : ℕ) (order : List String) : AggregateResult :=
  let ranges := aggregateRanges data
  { totalCount := data.length
    ranges := ranges
    percentages := fun key => roundToTwo (((ranges key : ℚ) / (data.length : ℚ)) * 100)
    largestGroup := findLargestGroup order ranges }

/-- Division with an explicit zero-divisor check: `none` exactly when the
divisor is zero.  Used to make the unguarded float division of
src/main.go:189 observable in the model. -/
def divChecked (a b : ℚ) : Option ℚ := if b = 0 then none else some (a / b)

/-- The percentage computation of src/main.go:189,
`roundToTwo((float64(count) / float64(total)) * 100.0)`, with the division
checked: `none` signals that the code divided by zero. -/
def percentageChecked (data : List ℚ) (key : String) : Option ℚ :=
  (divChecked ((aggregateRanges data key : ℚ)) ((data.length : ℚ))).map
    (fun q => roundToTwo (q * 100))

/-- Result of the dispatcher: which operation ran, with its result. -/
inductive OpResult where
  | analyzeRes (r : AnalyzeResult)
  | transformRes (r : TransformResult)
  | aggregateRes (r : AggregateResult)

/-- The operation switch of `main` (src/main.go:58-68): `"analyze"`,
`"transform"`, `"aggregate"`, and a `default` case that falls back to
`analyzeData`. -/
def dispatchOperation (operation : String) (data : List ℚ) (batchSize : ℕ)
    (order : List String) : OpResult :=
  if operation = "analyze" then .analyzeRes (analyzeData data batchSize)
  else if operation = "transform" then .transformRes (transformData data batchSize)
  else if operation = "aggregate" then .aggregateRes (aggregateData data batchSize order)
  else .analyzeRes (analyzeData data batchSize)

/-! Helper lemmas about `roundToTwo`. -/

lemma roundToTwo_gt (x : ℚ) : x - 1/200 < roundToTwo x := by
  unfold roundToTwo goTrunc
  split
  · have h := Int.sub_one_lt_floor (x * 100 + 1/2)
    linarith
  · have h := Int.le_ceil (x * 100 + 1/2)
    linarith

lemma roundToTwo_lt (x : ℚ) : roundToTwo x < x + 3/200 := by
  unfold roundToTwo goTrunc
  split
  · have h := Int.floor_le (x * 100 + 1/2)
    linarith
  · have h := Int.ceil_lt_add_one (x * 100 + 1/2)
    linarith

lemma roundToTwo_nonneg (x : ℚ) (hx : 0 ≤ x) : 0 ≤ roundToTwo x := by
  unfold roundToTwo goTrunc
  have hy : (0 : ℚ) ≤ x * 100 + 1/2 := by linarith
  rw [if_pos hy]
  have h : (0 : ℤ) ≤ ⌊x * 100 + 1/2⌋ := Int.floor_nonneg.mpr hy
  positivity

lemma roundToTwo_le_hundred (x : ℚ) (hx0 : 0 ≤ x) (hx : x ≤ 100) : roundToTwo x ≤ 100 := by
  unfold roundToTwo goTrunc
  have hy : (0 : ℚ) ≤ x * 100 + 1/2 := by linarith
  rw [if_pos hy]
  have h1 : (⌊x * 100 + 1/2⌋ : ℚ) ≤ x * 100 + 1/2 := Int.floor_le _
  have h2 : ⌊x * 100 + 1/2⌋ < 10001 := by
    have : (⌊x * 100 + 1/2⌋ : ℚ) < 10001 := by linarith
    exact_mod_cast this
  have h3 : (⌊x * 100 + 1/2⌋ : ℚ) ≤ 10000 := by
    have : ⌊x * 100 + 1/2⌋ ≤ 10000 := by omega
    exact_mod_cast this
  linarith

/-! Helper lemmas about sorted lists and the median. -/

lemma sorted_getD_le (s : List ℚ) (hs : List.Sorted (· ≤ ·) s) {i j : ℕ}
    (hij : i ≤ j) (hj : j < s.length) : s.getD i 0 ≤ s.getD j 0 := by
  have hi : i < s.length := lt_of_le_of_lt hij hj
  rw [List.getD_eq_getElem s 0 hi, List.getD_eq_getElem s 0 hj]
  exact List.Sorted.rel_get_of_le hs (a := ⟨i, hi⟩) (b := ⟨j, hj⟩) hij

lemma calculateMedian_bounds (s : List ℚ) (hs : List.Sorted (· ≤ ·) s)
    (hne : s.length ≠ 0) :
    s.getD 0 0 ≤ calculateMedian s ∧ calculateMedian s ≤ s.getD (s.length - 1) 0 := by
  unfold calculateMedian
  split
  · have hlen : 2 ≤ s.length := by omega
    have ha1 : s.getD 0 0 ≤ s.getD (s.length / 2 - 1) 0 :=
      sorted_getD_le s hs (Nat.zero_le _) (by omega)
    have ha2 : s.getD 0 0 ≤ s.getD (s.length / 2) 0 :=
      sorted_getD_le s hs (Nat.zero_le _) (by omega)
    have hb1 : s.getD (s.length / 2 - 1) 0 ≤ s.getD (s.length - 1) 0 :=
      sorted_getD_le s hs (by omega) (by omega)
    have hb2 : s.getD (s.length / 2) 0 ≤ s.getD (s.length - 1) 0 :=
      sorted_getD_le s hs (by omega) (by omega)
    constructor <;> linarith
  · constructor
    · exact sorted_getD_le s hs (Nat.zero_le _) (by omega)
    · exact sorted_getD_le s hs (by omega) (by omega)

/-! Helper lemmas about the batching loop. -/

lemma goBatches_nil (batchSize : ℕ) : goBatches batchSize [] = [] := by
  simp [goBatches]

lemma goBatches_cons (batchSize : ℕ) (v : ℚ) (rest : List ℚ) :
    goBatches batchSize (v :: rest)
      = (v :: rest.take (batchSize - 1)) :: goBatches batchSize (rest.drop (batchSize - 1)) := by
  simp [goBatches]

lemma goBatches_eq_nil_iff (batchSize : ℕ) (data : List ℚ) :
    goBatches batchSize data = [] ↔ data = [] := by
  cases data with
  | nil => simp [goBatches_nil]
  | cons v rest => simp [goBatches_cons]

lemma goBatches_flatten (batchSize : ℕ) :
    ∀ data : List ℚ, (goBatches batchSize data).flatten = data
  | [] => by simp [goBatches_nil]
  | v :: rest => by
      rw [goBatches_cons, List.flatten_cons,
        goBatches_flatten batchSize (rest.drop (batchSize - 1))]
      simp [List.take_append_drop]
termination_by data => data.length
decreasing_by simp; omega

lemma goBatches_length (batchSize : ℕ) (hbs : 1 ≤ batchSize) :
    ∀ data : List ℚ,
      (goBatches batchSize data).length = (data.length + batchSize - 1) / batchSize
  | [] => by
      simp only [goBatches_nil, List.length_nil]
      rw [Nat.div_eq_of_lt (by omega)]
  | v :: rest => by
      rw [goBatches_cons, List.length_cons,
        goBatches_length batchSize hbs (rest.drop (batchSize - 1)), List.length_drop]
      rcases le_or_lt (batchSize - 1) rest.length with h | h
      · have e1 : rest.length - (batchSize - 1) + batchSize - 1 = rest.length := by omega
        have e2 : (v :: rest).length + batchSize - 1 = rest.length + batchSize := by
          simp only [List.length_cons]; omega
        rw [e1, e2, Nat.add_div_right _ (by omega)]
      · have e1 : rest.length - (batchSize - 1) + batchSize - 1 = batchSize - 1 := by omega
        have e2 : (v :: rest).length + batchSize - 1 = rest.length + batchSize := by
          simp only [List.length_cons]; omega
        rw [e1, e2, Nat.add_div_right _ (by omega), Nat.div_eq_of_lt (by omega),
          Nat.div_eq_of_lt (by omega)]
termination_by data => data.length
decreasing_by simp; omega

lemma goBatches_mem_length (batchSize : ℕ) (hbs : 1 ≤ batchSize) :
    ∀ data : List ℚ, ∀ b ∈ goBatches batchSize data,
      1 ≤ b.length ∧ b.length ≤ batchSize
  | [] => by simp [goBatches_nil]
  | v :: rest => by
      intro b hb
      rw [goBatches_cons] at hb
      rcases List.mem_cons.mp hb with h | h
      · subst h
        simp only [List.length_cons]
        have := List.length_take_le (batchSize - 1) rest
        omega
      · exact goBatches_mem_length batchSize hbs (rest.drop (batchSize - 1)) b h
termination_by data => data.length
decreasing_by simp; omega

lemma goBatches_dropLast_length (batchSize : ℕ) (hbs : 1 ≤ batchSize) :
    ∀ data : List ℚ, ∀ b ∈ (goBatches batchSize data).dropLast, b.length = batchSize
  | [] => by simp [goBatches_nil]
  | v :: rest => by
      intro b hb
      rw [goBatches_cons] at hb
      rcases Classical.em (goBatches batchSize (rest.drop (batchSize - 1)) = []) with h | h
      · rw [h] at hb
        simp at hb
      · rw [List.dropLast_cons_of_ne_nil h] at hb
        rcases List.mem_cons.mp hb with h2 | h2
        · subst h2
          have hd : rest.drop (batchSize - 1) ≠ [] := by
            intro hc
            exact h (by rw [hc, goBatches_nil])
          have hlen : batchSize - 1 ≤ rest.length := by
            by_contra hc
            exact hd (List.drop_eq_nil_of_le (by omega))
          simp only [List.length_cons, List.length_take]
          omega
        · exact goBatches_dropLast_length batchSize hbs (rest.drop (batchSize - 1)) b h2
termination_by data => data.length
decreasing_by simp; omega

/-! Helper lemmas about the range buckets. -/

/-- Total of the five bucket counts. -/
def sumBuckets (m : String → ℕ) : ℕ := (bucketKeys.map m).sum

lemma bucketOf_mem (v : ℚ) : bucketOf v ∈ bucketKeys := by
  unfold bucketOf bucketKeys
  split_ifs <;> simp

lemma bucketOf_cases (v : ℚ) :
    (bucketOf v = "0-25" ↔ v ≤ 25) ∧
    (bucketOf v = "26-50" ↔ ¬ v ≤ 25 ∧ v ≤ 50) ∧
    (bucketOf v = "51-75" ↔ ¬ v ≤ 50 ∧ v ≤ 75) ∧
    (bucketOf v = "76-100" ↔ ¬ v ≤ 75 ∧ v ≤ 100) ∧
    (bucketOf v = "100+" ↔ ¬ v ≤ 100) := by
  unfold bucketOf
  by_cases h1 : v ≤ 25
  · have h2 : v ≤ 50 := by linarith
    have h3 : v ≤ 75 := by linarith
    have h4 : v ≤ 100 := by linarith
    simp [h1, h2, h3, h4]
  · by_cases h2 : v ≤ 50
    · have h3 : v ≤ 75 := by linarith
      have h4 : v ≤ 100 := by linarith
      simp [h1, h2, h3, h4]
    · by_cases h3 : v ≤ 75
      · have h4 : v ≤ 100 := by linarith
        simp [h1, h2, h3, h4]
      · by_cases h4 : v ≤ 100
        · simp [h1, h2, h3, h4]
        · simp [h1, h2, h3, h4]

lemma sumBuckets_bumpBucket (m : String → ℕ) (v : ℚ) :
    sumBuckets (bumpBucket m v) = sumBuckets m + 1 := by
  have hmem := bucketOf_mem v
  unfold bucketKeys at hmem
  simp only [List.mem_cons, List.not_mem_nil, or_false] at hmem
  unfold sumBuckets bumpBucket bucketKeys
  rcases hmem with h | h | h | h | h <;> rw [← h] <;> simp [h] <;> omega

lemma sumBuckets_foldl (data : List ℚ) :
    ∀ m : String → ℕ, sumBuckets (data.foldl bumpBucket m) = sumBuckets m + data.length := by
  induction data with
  | nil => intro m; simp
  | cons v rest ih =>
      intro m
      rw [List.foldl_cons, ih (bumpBucket m v), sumBuckets_bumpBucket]
      simp only [List.length_cons]
      omega

lemma sumBuckets_aggregateRanges (data : List ℚ) :
    sumBuckets (aggregateRanges data) = data.length := by
  unfold aggregateRanges
  rw [sumBuckets_foldl data (fun _ => 0)]
  simp [sumBuckets, bucketKeys]

/-! Helper lemmas about `findLargestGroup`. -/

lemma foldl_largestStep_keep (ranges : String → ℕ) :
    ∀ (l : List String) (acc : ℕ × String), (∀ k ∈ l, ranges k ≤ acc.1) →
      l.foldl (largestStep ranges) acc = acc := by
  intro l
  induction l with
  | nil => intro acc _; rfl
  | cons k rest ih =>
      intro acc h
      rw [List.foldl_cons]
      have hk : ranges k ≤ acc.1 := h k (List.mem_cons_self k rest)
      have : largestStep ranges acc k = acc := by
        unfold largestStep
        rw [if_neg (by omega)]
      rw [this]
      exact ih acc (fun k2 hk2 => h k2 (List.mem_cons_of_mem k hk2))

lemma foldl_largestStep_find (ranges : String → ℕ) (kStar : String) :
    ∀ (l : List String) (acc : ℕ × String), l.Nodup → kStar ∈ l →
      (∀ k ∈ l, k ≠ kStar → ranges k < ranges kStar) → acc.1 < ranges kStar →
      l.foldl (largestStep ranges) acc = (ranges kStar, kStar) := by
  intro l
  induction l with
  | nil => intro acc _ hmem; exact absurd hmem (List.not_mem_nil kStar)
  | cons k rest ih =>
      intro acc hnd hmem hlt hacc
      have hnd2 := List.nodup_cons.mp hnd
      rw [List.foldl_cons]
      by_cases hk : k = kStar
      · subst hk
        have hstep : largestStep ranges acc k = (ranges k, k) := by
          unfold largestStep
          rw [if_pos (by omega)]
        rw [hstep]
        exact foldl_largestStep_keep ranges rest (ranges k, k)
          (fun k2 hk2 => le_of_lt (hlt k2 (List.mem_cons_of_mem k hk2)
            (fun hc => hnd2.1 (hc ▸ hk2))))
      · have hmem2 : kStar ∈ rest := by
          rcases List.mem_cons.mp hmem with h | h
          · exact absurd h.symm hk
          · exact h
        have hklt : ranges k < ranges kStar :=
          hlt k (List.mem_cons_self k rest) hk
        have hacc2 : (largestStep ranges acc k).1 < ranges kStar := by
          unfold largestStep
          split <;> simpa using by omega
        exact ih (largestStep ranges acc k) hnd2.2 hmem2
          (fun k2 hk2 h2 => hlt k2 (List.mem_cons_of_mem k hk2) h2) hacc2

lemma bucketKeys_nodup : bucketKeys.Nodup := by decide

lemma findLargestGroup_unique (order : List String) (ranges : String → ℕ) (kStar : String)
    (hperm : order.Perm bucketKeys) (hmem : kStar ∈ bucketKeys)
    (hmax : ∀ k ∈ bucketKeys, k ≠ kStar → ranges k < ranges kStar)
    (hpos : 0 < ranges kStar) :
    findLargestGroup order ranges = kStar := by
  unfold findLargestGroup
  rw [foldl_largestStep_find ranges kStar order (0, "")
    (hperm.nodup_iff.mpr bucketKeys_nodup)
    (hperm.mem_iff.mpr hmem)
    (fun k hk h2 => hmax k (hperm.mem_iff.mp hk) h2)
    (by simpa using hpos)]

lemma findLargestGroup_zero (order : List String) (ranges : String → ℕ)
    (h : ∀ k, ranges k = 0) : findLargestGroup order ranges = "" := by
  unfold findLargestGroup
  rw [foldl_largestStep_keep ranges order (0, "") (fun k _ => by rw [h k])]

/-! Helper lemmas about normalization, batch numbering and percentages. -/

lemma normalizeValue_eq_min (v : ℚ) :
    normalizeValue v = roundToTwo (min (v / 1000 * 100) 100) := by
  unfold normalizeValue
  show roundToTwo (if v / 1000 * 100 > 100 then 100 else v / 1000 * 100) = _
  rcases le_or_lt (v / 1000 * 100) 100 with h | h
  · rw [if_neg (not_lt.mpr h), min_eq_left h]
  · rw [if_pos h, min_eq_right (le_of_lt h)]

lemma transform_transformed_eq_map (data : List ℚ) (batchSize : ℕ) :
    (transformData data batchSize).transformed = data.map normalizeValue := by
  show ((goBatches batchSize data).map (List.map normalizeValue)).flatten = _
  rw [← List.map_flatten, goBatches_flatten]

lemma enumFrom_map_num {α : Type _} : ∀ (l : List α) (k : ℕ),
    (List.enumFrom k l).map (fun p => p.1 + 1) = List.range' (k + 1) l.length
  | [], _ => rfl
  | a :: rest, k => by
      rw [List.enumFrom_cons, List.map_cons, List.length_cons, List.range'_succ,
        enumFrom_map_num rest (k + 1)]

lemma enum_map_num {α : Type _} (l : List α) :
    l.enum.map (fun p => p.1 + 1) = List.range' 1 l.length :=
  enumFrom_map_num l 0

lemma percentageChecked_agrees (data : List ℚ) (key : String) (batchSize : ℕ)
    (order : List String) (hne : data ≠ []) :
    percentageChecked data key
      = some ((aggregateData data batchSize order).percentages key) := by
  unfold percentageChecked divChecked
  have h0 : data.length ≠ 0 := fun hc => hne (List.length_eq_zero.mp hc)
  have hlen : (data.length : ℚ) ≠ 0 := Nat.cast_ne_zero.mpr h0
  rw [if_neg hlen]
  rfl

/-! Claim theorems. -/

/-- C1, counterexample: the claim `min ≤ median ≤ max` fails for the returned
(rounded) median.  On the dataset `[1/250]` (0.004), min = 0.004 but the median
field is `roundToTwo 0.004 = 0`, so `min ≤ median` is false. -/
theorem analyze_median_can_drop_below_min :
    ¬ ((analyzeData [1/250] 10).minOf ≤ (analyzeData [1/250] 10).medianOf) := by
  have h : analyzeData [1/250] 10
      = .analysis ⟨1, 0, 0, 0, 1/250, 1/250, 0, 1/250, 1/250⟩ := by
    norm_num [analyzeData, sortedCopy, calculateMedian, roundToTwo, goTrunc,
      List.mergeSort_singleton, AnalysisStats.mk.injEq]
  rw [h]
  norm_num [AnalyzeResult.minOf, AnalyzeResult.medianOf]

/-- C1 (amended): for every non-empty dataset, the returned median lies within
rounding error of the interval `[min, max]`: `min − 0.005 < median` and
`median < max + 0.015` (the rounding adds 0.5 and truncates toward zero, so it
can move a value down by up to 0.005, and — for negative inputs — up by just
under 0.015). -/
theorem analyze_median_between_min_max (data : List ℚ) (batchSize : ℕ)
    (s : AnalysisStats) (h : analyzeData data batchSize = .analysis s) :
    s.min - 1/200 < s.median ∧ s.median < s.max + 3/200 := by
  unfold analyzeData at h
  by_cases hlen : data.length = 0
  · rw [if_pos hlen] at h
    exact absurd h (by simp)
  · rw [if_neg hlen] at h
    have hs := (AnalyzeResult.analysis.injEq _ _).mp h
    subst hs
    have hsorted : List.Sorted (· ≤ ·) (sortedCopy data) := List.sorted_mergeSort' data
    have hlen2 : (sortedCopy data).length = data.length :=
      (List.mergeSort_perm data _).length_eq
    have hnz : (sortedCopy data).length ≠ 0 := by omega
    have hmed := calculateMedian_bounds (sortedCopy data) hsorted hnz
    have hgt := roundToTwo_gt (calculateMedian (sortedCopy data))
    have hlt := roundToTwo_lt (calculateMedian (sortedCopy data))
    constructor
    · show (sortedCopy data).getD 0 0 - 1/200 < roundToTwo (calculateMedian (sortedCopy data))
      linarith [hmed.1]
    · show roundToTwo (calculateMedian (sortedCopy data))
          < (sortedCopy data).getD ((sortedCopy data).length - 1) 0 + 3/200
      linarith [hmed.2]

/-- Witness for C1 (amended) at the concrete dataset `[4]`. -/
theorem analyze_median_between_min_max_witness :
    analyzeData [4] 10 = .analysis ⟨1, 4, 4, 4, 4, 4, 0, 4, 4⟩ ∧
    ((4 : ℚ) - 1/200 < 4 ∧ (4 : ℚ) < 4 + 3/200) := by
  have h : analyzeData [4] 10 = .analysis ⟨1, 4, 4, 4, 4, 4, 0, 4, 4⟩ := by
    norm_num [analyzeData, sortedCopy, calculateMedian, roundToTwo, goTrunc,
      List.mergeSort_singleton, AnalysisStats.mk.injEq]
  exact ⟨h, analyze_median_between_min_max [4] 10 _ h⟩

/-- C2: on the empty dataset, `analyzeData` returns the result whose only field
is the error indicator `"no data to analyze"` — the `AnalyzeResult.error`
constructor carries exactly that one field and no statistics — and, being a
total function, it neither aborts nor panics. -/
theorem analyze_empty_returns_error (batchSize : ℕ) :
    analyzeData [] batchSize = .error "no data to analyze" := rfl

/-- C3: `analyzeData` leaves the caller's dataset unchanged: in the
state-passing translation of its slice operations, the slice the caller holds
after the call is exactly the input, while the sorting happened on the fresh
copy (which is a permutation of the input, in ascending order). -/
theorem analyze_preserves_caller_data (data : List ℚ) :
    (analyzeSliceEffect data).1 = data ∧
    (analyzeSliceEffect data).2 = sortedCopy data ∧
    (analyzeSliceEffect data).2.Perm data ∧
    List.Sorted (· ≤ ·) (analyzeSliceEffect data).2 :=
  ⟨rfl, rfl, List.mergeSort_perm data _, List.sorted_mergeSort' data⟩

/-- C4: for batch_size ≥ 1 the transformed sequence is the value-wise image of
the dataset, in order: each value v becomes `roundToTwo (min (v/1000*100) 100)`
(upper clamp only); for `v ≤ 1000` this is `roundToTwo (v/10)`, and for
`0 ≤ v ≤ 1000` it lies in `[0, 100]`. -/
theorem transform_normalizes_values (data : List ℚ) (batchSize : ℕ)
    (hbs : 1 ≤ batchSize) :
    (transformData data batchSize).transformed
        = data.map (fun v => roundToTwo (min (v / 1000 * 100) 100)) ∧
    (∀ v : ℚ, v ≤ 1000 → roundToTwo (min (v / 1000 * 100) 100) = roundToTwo (v / 10)) ∧
    (∀ v : ℚ, 0 ≤ v → v ≤ 1000 →
      0 ≤ roundToTwo (v / 10) ∧ roundToTwo (v / 10) ≤ 100) := by
  refine ⟨?_, ?_, ?_⟩
  · rw [transform_transformed_eq_map data batchSize]
    have hfun : normalizeValue = fun v => roundToTwo (min (v / 1000 * 100) 100) :=
      funext normalizeValue_eq_min
    rw [hfun]
  · intro v hv
    have h10 : v / 1000 * 100 = v / 10 := by ring
    have hle : v / 10 ≤ 100 := by linarith
    rw [h10, min_eq_left hle]
  · intro v hv0 hv
    have h0 : (0 : ℚ) ≤ v / 10 := by linarith
    have h1 : v / 10 ≤ 100 := by linarith
    exact ⟨roundToTwo_nonneg _ h0, roundToTwo_le_hundred _ h0 h1⟩

/-- Witness for C4 at the spec's scenario, dataset `[10,20,30,40]`,
batch_size 2. -/
theorem transform_normalizes_values_witness :
    1 ≤ 2 ∧
    (transformData [10, 20, 30, 40] 2).transformed
        = ([10, 20, 30, 40] : List ℚ).map (fun v => roundToTwo (min (v / 1000 * 100) 100)) :=
  ⟨by omega, (transform_normalizes_values [10, 20, 30, 40] 2 (by omega)).1⟩

/-- C5: for batch_size ≥ 1 the batches are contiguous, non-overlapping and in
order (their concatenation is the dataset), numbered consecutively from 1,
`batches_processed = ⌈n/batch_size⌉` (as `(n + batchSize - 1) / batchSize`),
every batch before the last has exactly `batchSize` elements, and every batch
is non-empty with at most `batchSize` elements. -/
theorem transform_batching_partition (data : List ℚ) (batchSize : ℕ)
    (hbs : 1 ≤ batchSize) :
    (goBatches batchSize data).flatten = data ∧
    (transformData data batchSize).batchesProcessed
        = (data.length + batchSize - 1) / batchSize ∧
    ((transformData data batchSize).batchResults.map (fun b => b.batchNumber))
        = List.range' 1 ((transformData data batchSize).batchesProcessed) ∧
    (∀ b ∈ (goBatches batchSize data).dropLast, b.length = batchSize) ∧
    (∀ b ∈ goBatches batchSize data, 1 ≤ b.length ∧ b.length ≤ batchSize) := by
  have hlen : (transformData data batchSize).batchesProcessed
      = (goBatches batchSize data).length := by
    show ((goBatches batchSize data).enum.map _).length = _
    rw [List.length_map, List.enum_length]
  refine ⟨goBatches_flatten batchSize data, ?_, ?_, ?_, ?_⟩
  · rw [hlen, goBatches_length batchSize hbs data]
  · show (((goBatches batchSize data).enum.map
        (fun p => processBatch p.2 (p.1 + 1))).map (fun b => b.batchNumber)) = _
    rw [List.map_map]
    have hcomp : ((fun b : BatchResult => b.batchNumber)
        ∘ (fun p : ℕ × List ℚ => processBatch p.2 (p.1 + 1)))
        = fun p : ℕ × List ℚ => p.1 + 1 := rfl
    rw [hcomp, enum_map_num, hlen]
  · exact goBatches_dropLast_length batchSize hbs data
  · exact goBatches_mem_length batchSize hbs data

/-- Witness for C5 at dataset `[10,20,30,40]`, batch_size 2 (two batches). -/
theorem transform_batching_partition_witness :
    1 ≤ 2 ∧
    (transformData [10, 20, 30, 40] 2).batchesProcessed
        = (([10, 20, 30, 40] : List ℚ).length + 2 - 1) / 2 :=
  ⟨by omega, (transform_batching_partition [10, 20, 30, 40] 2 (by omega)).2.1⟩

/-- C6: every value lands in exactly one of the five buckets — `bucketOf` is a
function into `bucketKeys` whose bucket is characterized by the thresholds
`≤ 25`, `≤ 50`, `≤ 75`, `≤ 100`, else `"100+"` — and the five bucket counts sum
to the dataset length. -/
theorem aggregate_buckets_partition (data : List ℚ) :
    (bucketKeys.map (aggregateRanges data)).sum = data.length ∧
    (∀ v : ℚ, bucketOf v ∈ bucketKeys) ∧
    (∀ v : ℚ,
      (bucketOf v = "0-25" ↔ v ≤ 25) ∧
      (bucketOf v = "26-50" ↔ ¬ v ≤ 25 ∧ v ≤ 50) ∧
      (bucketOf v = "51-75" ↔ ¬ v ≤ 50 ∧ v ≤ 75) ∧
      (bucketOf v = "76-100" ↔ ¬ v ≤ 75 ∧ v ≤ 100) ∧
      (bucketOf v = "100+" ↔ ¬ v ≤ 100)) :=
  ⟨sumBuckets_aggregateRanges data, bucketOf_mem, bucketOf_cases⟩

/-- C7: the percentage computation divides by `total_count` with no guard, so on
the empty dataset it divides by zero: with the division made observable
(`percentageChecked`), it fails exactly on the empty dataset and agrees with
`aggregateData`'s percentages on every other dataset. -/
theorem aggregate_percentages_divide_by_zero (key : String) :
    percentageChecked [] key = none ∧
    (∀ data : List ℚ, (percentageChecked data key = none ↔ data = [])) ∧
    (∀ (data : List ℚ) (batchSize : ℕ) (order : List String), data ≠ [] →
      percentageChecked data key
        = some ((aggregateData data batchSize order).percentages key)) := by
  refine ⟨rfl, ?_, ?_⟩
  · intro data
    unfold percentageChecked divChecked
    by_cases hd : (data.length : ℚ) = 0
    · rw [if_pos hd]
      constructor
      · intro _
        have hl : data.length = 0 := by exact_mod_cast hd
        exact List.length_eq_zero.mp hl
      · intro _
        rfl
    · rw [if_neg hd]
      constructor
      · intro hc
        simp at hc
      · intro hc
        subst hc
        simp at hd
  · intro data batchSize order hne
    exact percentageChecked_agrees data key batchSize order hne

/-- Witness for C7's non-empty branch at dataset `[5]`. -/
theorem aggregate_percentages_divide_by_zero_witness :
    ([5] : List ℚ) ≠ [] ∧
    percentageChecked [5] "0-25"
        = some ((aggregateData [5] 10 bucketKeys).percentages "0-25") :=
  ⟨by simp, (aggregate_percentages_divide_by_zero "0-25").2.2 [5] 10 bucketKeys (by simp)⟩

/-- C8: the dispatcher runs `analyzeData` on `"analyze"`, `transformData` on
`"transform"`, `aggregateData` on `"aggregate"`, and for every other string the
default case falls back to `analyzeData`, so some operation always runs. -/
theorem dispatch_operation_cases (data : List ℚ) (batchSize : ℕ) (order : List String)
    (op : String) (hop : op ≠ "analyze" ∧ op ≠ "transform" ∧ op ≠ "aggregate") :
    dispatchOperation "analyze" data batchSize order
        = .analyzeRes (analyzeData data batchSize) ∧
    dispatchOperation "transform" data batchSize order
        = .transformRes (transformData data batchSize) ∧
    dispatchOperation "aggregate" data batchSize order
        = .aggregateRes (aggregateData data batchSize order) ∧
    dispatchOperation op data batchSize order = .analyzeRes (analyzeData data batchSize) := by
  refine ⟨rfl, ?_, ?_, ?_⟩
  · unfold dispatchOperation
    rw [if_neg (by decide), if_pos rfl]
  · unfold dispatchOperation
    rw [if_neg (by decide), if_neg (by decide), if_pos rfl]
  · unfold dispatchOperation
    rw [if_neg hop.1, if_neg hop.2.1, if_neg hop.2.2]

/-- Witness for C8's default case with the unknown tag `"summarize"`. -/
theorem dispatch_operation_cases_witness :
    ("summarize" ≠ "analyze" ∧ "summarize" ≠ "transform" ∧ "summarize" ≠ "aggregate") ∧
    dispatchOperation "summarize" [1] 10 bucketKeys = .analyzeRes (analyzeData [1] 10) :=
  ⟨by decide, (dispatch_operation_cases [1] 10 bucketKeys "summarize" (by decide)).2.2.2⟩

/-- C9, counterexample: aggregation is not deterministic in the largest_group
field.  On the tie dataset `[5, 30, 60, 90, 150]` (one value per bucket), the
map iteration order `bucketKeys` yields `"0-25"` while its reverse — an equally
legitimate Go map iteration order — yields `"100+"`, so the two runs return
different results. -/
theorem aggregate_largest_group_order_dependent :
    bucketKeys.reverse.Perm bucketKeys ∧
    (aggregateData [5, 30, 60, 90, 150] 10 bucketKeys).largestGroup = "0-25" ∧
    (aggregateData [5, 30, 60, 90, 150] 10 bucketKeys.reverse).largestGroup = "100+" ∧
    aggregateData [5, 30, 60, 90, 150] 10 bucketKeys
      ≠ aggregateData [5, 30, 60, 90, 150] 10 bucketKeys.reverse := by
  refine ⟨List.reverse_perm bucketKeys, by decide, by decide, ?_⟩
  intro h
  have h2 := congrArg AggregateResult.largestGroup h
  have h3 : (aggregateData [5, 30, 60, 90, 150] 10 bucketKeys).largestGroup = "0-25" := by
    decide
  have h4 : (aggregateData [5, 30, 60, 90, 150] 10 bucketKeys.reverse).largestGroup
      = "100+" := by decide
  rw [h3, h4] at h2
  exact absurd h2 (by decide)

/-- C9 (amended): each operation is a pure function of dataset, batch_size and
map iteration order; aggregation's total_count, ranges and percentages do not
depend on the iteration order at all, and largest_group is also
order-independent whenever one bucket's count is positive and strictly exceeds
every other bucket's (only tied maxima make largest_group depend on the
unspecified iteration order, as the counterexample shows). -/
theorem aggregate_deterministic_fields (data : List ℚ) (batchSize : ℕ)
    (o1 o2 : List String) (h1 : o1.Perm bucketKeys) (h2 : o2.Perm bucketKeys) :
    (aggregateData data batchSize o1).totalCount
        = (aggregateData data batchSize o2).totalCount ∧
    (aggregateData data batchSize o1).ranges = (aggregateData data batchSize o2).ranges ∧
    (aggregateData data batchSize o1).percentages
        = (aggregateData data batchSize o2).percentages ∧
    (∀ k ∈ bucketKeys, 0 < aggregateRanges data k →
      (∀ k2 ∈ bucketKeys, k2 ≠ k → aggregateRanges data k2 < aggregateRanges data k) →
      (aggregateData data batchSize o1).largestGroup = k ∧
      (aggregateData data batchSize o2).largestGroup = k) := by
  refine ⟨rfl, rfl, rfl, ?_⟩
  intro k hk hpos hmax
  exact ⟨findLargestGroup_unique o1 _ k h1 hk hmax hpos,
    findLargestGroup_unique o2 _ k h2 hk hmax hpos⟩

/-- Witness for C9 (amended): on `[5]` the bucket `"0-25"` strictly dominates,
and both iteration orders select it. -/
theorem aggregate_deterministic_fields_witness :
    (aggregateData [5] 10 bucketKeys).largestGroup = "0-25" ∧
    (aggregateData [5] 10 bucketKeys.reverse).largestGroup = "0-25" :=
  (aggregate_deterministic_fields [5] 10 bucketKeys bucketKeys.reverse
    (List.Perm.refl bucketKeys) (List.reverse_perm bucketKeys)).2.2.2
    "0-25" (by decide) (by decide) (by decide)

/-- C10: on the empty dataset every bucket count is zero, the strictly-greater
comparison in `findLargestGroup` never fires from its `maxCount = 0` start, and
the largest_group field is the initial empty string. -/
theorem aggregate_empty_largest_group (batchSize : ℕ) (order : List String) :
    (aggregateData [] batchSize order).largestGroup = "" :=
  findLargestGroup_zero order (aggregateRanges []) (fun _ => rfl)

end Scripts
